import Mathlib

/-!
Verification of the dataset-preparation and training pipeline of the
yolo-vehicle-annotator repository (custom_model_trainer.py, yolo_exporter.py).

The Python code is shallowly embedded: pure computations become Lean
functions over exact rationals (Python float arithmetic is idealised as
exact rational arithmetic; the binary64 round-off of at most 2^-53 relative
error is far below every tolerance stated in the specification), raised
exceptions become Except/Option results, and the in-place `random.shuffle`
on a copied list is modelled by an explicit permutation parameter.
-/

instance {ε α : Type _} [DecidableEq ε] [DecidableEq α] : DecidableEq (Except ε α)
  | .error e, .error f =>
    if h : e = f then .isTrue (by rw [h]) else .isFalse (by simp [h])
  | .error _, .ok _ => .isFalse (by simp)
  | .ok _, .error _ => .isFalse (by simp)
  | .ok a, .ok b =>
    if h : a = b then .isTrue (by rw [h]) else .isFalse (by simp [h])

/-- Python `int()` applied to a (here: exact rational) numeric value:
truncation toward zero. -/
def pyInt (q : ℚ) : ℤ := if q < 0 then q.ceil else q.floor

/-- The executable `Rat.floor` agrees with the mathematical floor. -/
theorem ratFloor_eq (q : ℚ) : q.floor = ⌊q⌋ := by
  rw [Rat.floor_def, Rat.floor_def']

/-- On nonnegative values, Python `int()` truncation is the floor. -/
theorem pyInt_eq_floor {q : ℚ} (h : 0 ≤ q) : pyInt q = ⌊q⌋ := by
  rw [pyInt, if_neg (not_lt.mpr h), ratFloor_eq]

/-- Effective index of a Python slice bound `i` on a list of length `n`:
negative bounds count from the end, and the result is clamped to `[0, n]`. -/
def pyIdx (n : ℕ) (i : ℤ) : ℕ := ((max (if i < 0 then i + n else i) 0).toNat).min n

/-- Python list slice `l[a:b]` (step 1). -/
def pySlice (l : List α) (a b : ℤ) : List α :=
  (l.take (pyIdx l.length b)).drop (pyIdx l.length a)

/-- The message of the ValueError raised by `DatasetPreparer._split_dataset`
when the ratios are out of tolerance; it interpolates the actual sum
(the numeric rendering of the sum is modelled by `toString` on the exact
rational). -/
def ratioErrorMsg (totalRatio : ℚ) : String :=
  "資料集比例總和應為1.0，當前為" ++ toString totalRatio

/-- Embedding of `DatasetPreparer._split_dataset(files, train_ratio, val_ratio, test_ratio)`.
`σ` is the permutation drawn by `random.shuffle`, applied to the internal
copy `files.copy()` of the argument list.  Python truncating `int()` and
Python slice semantics are used exactly as in the source.  The tolerance
check compares exact rationals; exactly on the boundary (sum `1.01` or
`0.99`) binary64 round-off can tip the program's comparison the other way,
so every concrete input used in the theorems below keeps the sum strictly
inside or strictly outside the tolerance, where the two checks agree. -/
def splitDataset (σ : List α → List α) (files : List α)
    (trainRatio valRatio testRatio : ℚ) :
    Except String (List α × List α × List α) :=
  let totalRatio := trainRatio + valRatio + testRatio
  if 1/100 < |totalRatio - 1| then
    .error (ratioErrorMsg totalRatio)
  else
    let fs := σ files
    let totalFiles : ℤ := fs.length
    let trainCount := pyInt ((totalFiles : ℚ) * trainRatio)
    let valCount := pyInt ((totalFiles : ℚ) * valRatio)
    .ok (pySlice fs 0 trainCount,
         pySlice fs trainCount (trainCount + valCount),
         pySlice fs (trainCount + valCount) totalFiles)

/-- Unfolding of `_split_dataset` when the ratio tolerance check passes. -/
theorem splitDataset_ok (σ : List α → List α) (files : List α)
    (trainRatio valRatio testRatio : ℚ)
    (h : ¬ 1/100 < |trainRatio + valRatio + testRatio - 1|) :
    splitDataset σ files trainRatio valRatio testRatio =
      .ok (pySlice (σ files) 0 (pyInt (((σ files).length : ℚ) * trainRatio)),
           pySlice (σ files) (pyInt (((σ files).length : ℚ) * trainRatio))
             (pyInt (((σ files).length : ℚ) * trainRatio) +
              pyInt (((σ files).length : ℚ) * valRatio)),
           pySlice (σ files)
             (pyInt (((σ files).length : ℚ) * trainRatio) +
              pyInt (((σ files).length : ℚ) * valRatio))
             ((σ files).length : ℤ)) := by
  simp only [splitDataset, if_neg h]
  norm_cast

/-- Unfolding of `_split_dataset` when the ratio tolerance check fails. -/
theorem splitDataset_err (σ : List α → List α) (files : List α)
    (trainRatio valRatio testRatio : ℚ)
    (h : 1/100 < |trainRatio + valRatio + testRatio - 1|) :
    splitDataset σ files trainRatio valRatio testRatio =
      .error (ratioErrorMsg (trainRatio + valRatio + testRatio)) := by
  simp only [splitDataset, if_pos h]

theorem floor_add_floor_le (x y : ℚ) : ⌊x⌋ + ⌊y⌋ ≤ ⌊x + y⌋ := by
  apply Int.le_floor.mpr
  push_cast
  exact add_le_add (Int.floor_le x) (Int.floor_le y)

/-- A nonnegative Python slice bound clamps to `min` with the length. -/
theorem pyIdx_of_nonneg {n : ℕ} {i : ℤ} (h : 0 ≤ i) : pyIdx n i = min i.toNat n := by
  simp [pyIdx, not_lt.mpr h, max_eq_left h]

/-- Evaluation of the three slices of `_split_dataset` for in-range
nonnegative counts `a` and `a + b`. -/
theorem pySlice_split (fs : List α) (a b : ℕ) (hab : a + b ≤ fs.length) :
    pySlice fs 0 (a : ℤ) = fs.take a ∧
    pySlice fs (a : ℤ) ((a : ℤ) + (b : ℤ)) = (fs.drop a).take b ∧
    pySlice fs ((a : ℤ) + (b : ℤ)) (fs.length : ℤ) = fs.drop (a + b) := by
  have ha : a ≤ fs.length := le_trans (Nat.le_add_right a b) hab
  have e0 : pyIdx fs.length (0 : ℤ) = 0 := by
    rw [pyIdx_of_nonneg le_rfl]; simp
  have ea : pyIdx fs.length (a : ℤ) = a := by
    rw [pyIdx_of_nonneg (Int.natCast_nonneg a)]
    simp [min_eq_left ha]
  have eab : pyIdx fs.length ((a : ℤ) + (b : ℤ)) = a + b := by
    rw [pyIdx_of_nonneg (by positivity)]
    have : ((a : ℤ) + (b : ℤ)).toNat = a + b := by omega
    simp [this, min_eq_left hab]
  have en : pyIdx fs.length (fs.length : ℤ) = fs.length := by
    rw [pyIdx_of_nonneg (Int.natCast_nonneg _)]
    simp
  refine ⟨?_, ?_, ?_⟩
  · rw [pySlice, e0, ea, List.drop_zero]
  · rw [pySlice, ea, eab, List.drop_take]
    congr 1
    omega
  · rw [pySlice, eab, en, List.take_length]

/-- C1 (amended): for nonnegative ratios with `train + val ≤ 1` that pass the
tolerance check, `_split_dataset` returns lists of sizes
`⌊n * train_ratio⌋`, `⌊n * val_ratio⌋` and the entire remainder; the three
lists are pairwise disjoint when the input has no duplicates, and their
concatenation is a permutation of the input, so the lengths sum to `n`. -/
theorem C1_split_sizes (σ : List α → List α) (files : List α)
    (trainRatio valRatio testRatio : ℚ)
    (hσ : ∀ l : List α, (σ l).Perm l) (hnd : files.Nodup)
    (htol : |trainRatio + valRatio + testRatio - 1| ≤ 1/100)
    (htr : 0 ≤ trainRatio) (hvr : 0 ≤ valRatio)
    (hsum : trainRatio + valRatio ≤ 1) :
    ∃ train val test,
      splitDataset σ files trainRatio valRatio testRatio = .ok (train, val, test) ∧
      (train.length : ℤ) = ⌊(files.length : ℚ) * trainRatio⌋ ∧
      (val.length : ℤ) = ⌊(files.length : ℚ) * valRatio⌋ ∧
      test.length = files.length - train.length - val.length ∧
      train.length + val.length + test.length = files.length ∧
      (train ++ val ++ test).Perm files ∧
      train.Disjoint val ∧ train.Disjoint test ∧ val.Disjoint test := by
  have hperm := hσ files
  have hlen : (σ files).length = files.length := hperm.length_eq
  set fs := σ files with hfs
  set n := files.length with hn
  have hA0 : (0 : ℤ) ≤ ⌊(n : ℚ) * trainRatio⌋ :=
    Int.floor_nonneg.mpr (mul_nonneg (Nat.cast_nonneg n) htr)
  have hB0 : (0 : ℤ) ≤ ⌊(n : ℚ) * valRatio⌋ :=
    Int.floor_nonneg.mpr (mul_nonneg (Nat.cast_nonneg n) hvr)
  have hABn : ⌊(n : ℚ) * trainRatio⌋ + ⌊(n : ℚ) * valRatio⌋ ≤ (n : ℤ) := by
    refine le_trans (floor_add_floor_le _ _) ?_
    have : (n : ℚ) * trainRatio + (n : ℚ) * valRatio ≤ (n : ℚ) := by
      rw [← mul_add]
      calc (n : ℚ) * (trainRatio + valRatio) ≤ (n : ℚ) * 1 :=
            mul_le_mul_of_nonneg_left hsum (Nat.cast_nonneg n)
        _ = (n : ℚ) := mul_one _
    refine le_trans (Int.floor_le_floor this) ?_
    simp
  set a := (⌊(n : ℚ) * trainRatio⌋).toNat with hadef
  set b := (⌊(n : ℚ) * valRatio⌋).toNat with hbdef
  have hacast : (a : ℤ) = ⌊(n : ℚ) * trainRatio⌋ := Int.toNat_of_nonneg hA0
  have hbcast : (b : ℤ) = ⌊(n : ℚ) * valRatio⌋ := Int.toNat_of_nonneg hB0
  have habn : a + b ≤ n := by omega
  have habfs : a + b ≤ fs.length := by rw [hlen]; exact habn
  have hpy1 : pyInt ((fs.length : ℚ) * trainRatio) = (a : ℤ) := by
    rw [pyInt_eq_floor (mul_nonneg (Nat.cast_nonneg _) htr), hlen, hacast]
  have hpy2 : pyInt ((fs.length : ℚ) * valRatio) = (b : ℤ) := by
    rw [pyInt_eq_floor (mul_nonneg (Nat.cast_nonneg _) hvr), hlen, hbcast]
  obtain ⟨s1, s2, s3⟩ := pySlice_split fs a b habfs
  have hok := splitDataset_ok σ files trainRatio valRatio testRatio
    (not_lt.mpr htol)
  rw [← hfs, hpy1, hpy2, s1, s2, s3] at hok
  refine ⟨fs.take a, (fs.drop a).take b, fs.drop (a + b), hok, ?_, ?_, ?_, ?_, ?_, ?_, ?_, ?_⟩
  · rw [List.length_take, min_eq_left (le_trans (Nat.le_add_right a b) habfs), hacast]
  · rw [List.length_take, List.length_drop,
      min_eq_left (show b ≤ fs.length - a by omega), hbcast]
  · simp only [List.length_take, List.length_drop]
    omega
  · simp only [List.length_take, List.length_drop]
    omega
  · have hdt : fs.drop (a + b) = (fs.drop a).drop b := by
      rw [List.drop_drop, Nat.add_comm]
    rw [hdt, List.append_assoc, List.take_append_drop, List.take_append_drop]
    exact hperm
  · have hd : List.Disjoint (fs.take a) (fs.drop a) :=
      List.disjoint_take_drop (hperm.nodup_iff.mpr hnd) le_rfl
    exact fun x hx hx2 => hd hx (List.take_subset _ _ hx2)
  · have hd : List.Disjoint (fs.take a) (fs.drop a) :=
      List.disjoint_take_drop (hperm.nodup_iff.mpr hnd) le_rfl
    intro x hx hx2
    refine hd hx ?_
    rw [show fs.drop (a + b) = (fs.drop a).drop b from by
      rw [List.drop_drop, Nat.add_comm]] at hx2
    exact List.drop_subset _ _ hx2
  · have hnd2 : (fs.drop a).Nodup :=
      ((hperm.nodup_iff.mpr hnd).sublist (List.drop_sublist a fs))
    have hd : List.Disjoint ((fs.drop a).take b) ((fs.drop a).drop b) :=
      List.disjoint_take_drop hnd2 le_rfl
    intro x hx hx2
    refine hd hx ?_
    rw [show fs.drop (a + b) = (fs.drop a).drop b from by
      rw [List.drop_drop, Nat.add_comm]] at hx2
    exact hx2

set_option maxRecDepth 4000 in
/-- C1: the claim quantifies over every ratio triple within the 0.01
tolerance, but for `(1, 1/200, 0)` — sum `1.005`, strictly inside the
tolerance, where the binary64 check of the program and the exact check
agree — a 200-element input yields an empty validation list although
`⌊200 * (1/200)⌋ = 1`, so the stated size `⌊n * val_ratio⌋` is not attained
(the train slice has already consumed the whole list). -/
theorem C1_counterexample :
    |(1 : ℚ) + 1/200 + 0 - 1| ≤ 1/100 ∧
    ⌊((List.range 200).length : ℚ) * (1/200)⌋ = 1 ∧
    ∀ train val test : List ℕ,
      splitDataset id (List.range 200) 1 (1/200) 0 = .ok (train, val, test) →
        val.length = 0 := by
  refine ⟨by norm_num [abs_le], by norm_num, ?_⟩
  have heval : splitDataset id (List.range 200) 1 (1/200) 0 =
      .ok (List.range 200, [], []) := by
    rw [splitDataset_ok _ _ _ _ _ (by norm_num [abs_le])]
    have h1 : pyInt (((id (List.range 200)).length : ℚ) * 1) = 200 := by
      rw [pyInt_eq_floor (by norm_num)]; norm_num
    have h2 : pyInt (((id (List.range 200)).length : ℚ) * (1/200)) = 1 := by
      rw [pyInt_eq_floor (by norm_num)]; norm_num
    rw [h1, h2]
    decide
  intro train val test h
  have h2 := heval.symm.trans h
  simp only [Except.ok.injEq, Prod.mk.injEq] at h2
  obtain ⟨-, h3, -⟩ := h2
  rw [← h3]
  rfl

theorem C1_split_sizes_witness :
    ([0, 1, 2] : List ℕ).Nodup ∧
    |(7 : ℚ)/10 + 1/5 + 1/10 - 1| ≤ 1/100 ∧
    ∃ train val test,
      splitDataset id [0, 1, 2] (7/10) (1/5) (1/10) = .ok (train, val, test) ∧
      (train.length : ℤ) = ⌊(([0, 1, 2] : List ℕ).length : ℚ) * (7/10)⌋ ∧
      (val.length : ℤ) = ⌊(([0, 1, 2] : List ℕ).length : ℚ) * (1/5)⌋ ∧
      test.length = ([0, 1, 2] : List ℕ).length - train.length - val.length ∧
      train.length + val.length + test.length = ([0, 1, 2] : List ℕ).length ∧
      (train ++ val ++ test).Perm [0, 1, 2] ∧
      train.Disjoint val ∧ train.Disjoint test ∧ val.Disjoint test :=
  ⟨by decide, by norm_num [abs_le],
   C1_split_sizes id [0, 1, 2] (7/10) (1/5) (1/10) (fun l => List.Perm.refl l)
     (by decide) (by norm_num [abs_le]) (by norm_num) (by norm_num) (by norm_num)⟩

/-- Embedding of `DatasetPreparer._split_dataset` with Python object mutation made
explicit: `heap` is the store of list objects, `ref` the index of the
caller's list.  `files.copy()` allocates a fresh object at the end of the
store, and `random.shuffle` (drawing the permutation `σ`) mutates only that
fresh object in place. -/
def splitDatasetHeap (σ : List α → List α) (heap : List (List α)) (ref : ℕ)
    (trainRatio valRatio testRatio : ℚ) :
    List (List α) × Except String (List α × List α × List α) :=
  let files := heap.getD ref []
  let totalRatio := trainRatio + valRatio + testRatio
  if 1/100 < |totalRatio - 1| then
    (heap, .error (ratioErrorMsg totalRatio))
  else
    let copyRef := heap.length
    let heap2 := (heap ++ [files]).set copyRef (σ files)
    let fs := heap2.getD copyRef []
    let totalFiles : ℤ := fs.length
    let trainCount := pyInt ((totalFiles : ℚ) * trainRatio)
    let valCount := pyInt ((totalFiles : ℚ) * valRatio)
    (heap2,
     .ok (pySlice fs 0 trainCount,
          pySlice fs trainCount (trainCount + valCount),
          pySlice fs (trainCount + valCount) totalFiles))

/-- C4: for ratio triples outside the tolerance, `_split_dataset` raises a
ValueError whose message interpolates the actual sum, before any statement
with a side effect runs: the store of list objects is returned unchanged
(the caller's list is not shuffled) and no partition is produced. -/
theorem C4_ratio_validation (σ : List α → List α) (heap : List (List α))
    (ref : ℕ) (trainRatio valRatio testRatio : ℚ)
    (h : 1/100 < |trainRatio + valRatio + testRatio - 1|) :
    splitDatasetHeap σ heap ref trainRatio valRatio testRatio =
      (heap, .error (ratioErrorMsg (trainRatio + valRatio + testRatio))) := by
  simp only [splitDatasetHeap, if_pos h]

theorem C4_ratio_validation_witness :
    (1 : ℚ)/100 < |(1 : ℚ)/2 + 3/10 + 1/10 - 1| ∧
    splitDatasetHeap id [[1, 2, 3]] 0 (1/2) (3/10) (1/10) =
      ([[1, 2, 3]], .error (ratioErrorMsg ((1 : ℚ)/2 + 3/10 + 1/10))) := by
  have habs : |(1 : ℚ)/2 + 3/10 + 1/10 - 1| = 1/10 := by
    rw [abs_of_nonpos (by norm_num)]; norm_num
  exact ⟨by rw [habs]; norm_num,
    C4_ratio_validation id [[1, 2, 3]] 0 (1/2) (3/10) (1/10)
      (by rw [habs]; norm_num)⟩

/-- C10: when the tolerance check passes, `_split_dataset` shuffles only the
fresh copy it allocates, so the caller's list object holds the same elements
in the same order after the call. -/
theorem C10_no_mutation (σ : List α → List α) (heap : List (List α))
    (ref : ℕ) (trainRatio valRatio testRatio : ℚ)
    (htol : |trainRatio + valRatio + testRatio - 1| ≤ 1/100)
    (href : ref < heap.length) :
    ((splitDatasetHeap σ heap ref trainRatio valRatio testRatio).1).getD ref []
      = heap.getD ref [] := by
  simp only [splitDatasetHeap, if_neg (not_lt.mpr htol)]
  rw [List.getD_eq_getElem?_getD, List.getD_eq_getElem?_getD,
    List.getElem?_set_ne (by omega : heap.length ≠ ref),
    List.getElem?_append_left href]

/-- The progress value computed by `ModelTrainer._setup_callbacks.on_train_epoch_end`
at the end of 0-based epoch `epoch` of a `totalEpochs`-epoch run:
`int((trainer.epoch + 1) / trainer.epochs * 100)`. -/
def progressAt (epoch totalEpochs : ℕ) : ℤ :=
  pyInt (((epoch : ℚ) + 1) / (totalEpochs : ℚ) * 100)

/-- The progress values emitted over a full run, in epoch order. -/
def progressSequence (totalEpochs : ℕ) : List ℤ :=
  (List.range totalEpochs).map (fun i => progressAt i totalEpochs)

theorem progressSequence_three : progressSequence 3 = [33, 66, 100] := by
  have p0 : progressAt 0 3 = 33 := by
    rw [progressAt, pyInt_eq_floor (by norm_num)]
    push_cast
    norm_num
  have p1 : progressAt 1 3 = 66 := by
    rw [progressAt, pyInt_eq_floor (by norm_num)]
    push_cast
    norm_num
  have p2 : progressAt 2 3 = 100 := by
    rw [progressAt, pyInt_eq_floor (by norm_num)]
    push_cast
    norm_num
  have h2 : progressSequence 3 = [progressAt 0 3, progressAt 1 3, progressAt 2 3] := by
    simp [progressSequence, List.range_succ]
  rw [h2, p0, p1, p2]

/-- C2: the claim predicts `33, 67, 100` for a 3-epoch run, but the code's
integer truncation of `2/3 * 100 = 66.66...` is `66`, not `67`. -/
theorem C2_counterexample : progressSequence 3 ≠ [33, 67, 100] := by
  intro h
  exact absurd (progressSequence_three.symm.trans h) (by decide)

/-- C2 (amended): the progress value emitted at the end of 0-based epoch `i`
is the integer truncation of `(i+1)/total_epochs*100`; a 3-epoch run emits
`33, 66, 100`, in strictly increasing order. -/
theorem C2_progress_values :
    progressSequence 3 = [33, 66, 100] ∧
    List.Chain' (· < ·) (progressSequence 3) := by
  refine ⟨progressSequence_three, ?_⟩
  rw [progressSequence_three]
  simp only [List.chain'_cons, List.chain'_singleton, and_true]
  exact ⟨by decide, by decide⟩

/-- Python-style raised exceptions of the embedded code. -/
inductive PyErr where
  | zeroDivisionError : PyErr
  | valueError : PyErr
deriving DecidableEq, Repr

/-- A `QRect` as used by `YoloExporter.export_annotations`: integer origin
`(x, y)` and integer extent `(width, height)`. -/
structure Rect where
  x : ℤ
  y : ℤ
  width : ℤ
  height : ℤ
deriving DecidableEq, Repr

/-- Python true division, which raises ZeroDivisionError on a zero divisor. -/
def pydiv (a b : ℚ) : Except PyErr ℚ :=
  if b = 0 then .error .zeroDivisionError else .ok (a / b)

theorem exceptBind_ok {ε α β : Type _} (a : α) (f : α → Except ε β) :
    (Except.ok a >>= f) = f a := rfl

theorem exceptBind_error {ε α β : Type _} (e : ε) (f : α → Except ε β) :
    ((Except.error e : Except ε α) >>= f) = Except.error e := rfl

theorem exceptMap_ok {ε α β : Type _} (f : α → β) (a : α) :
    Except.map f (Except.ok a : Except ε α) = .ok (f a) := rfl

theorem exceptMap_error {ε α β : Type _} (f : α → β) (e : ε) :
    Except.map f (Except.error e : Except ε α) = .error e := rfl

/-- The normalized YOLO coordinates computed per annotation by
`YoloExporter.export_annotations`: with `x1, y1 = rect.x(), rect.y()` and
`x2, y2 = x1 + rect.width(), y1 + rect.height()`, the values
`(x1+x2)/2/img_w`, `(y1+y2)/2/img_h`, `abs(x2-x1)/img_w`,
`abs(y2-y1)/img_h` (division by the literal 2 cannot raise and is kept
exact; the division by the image dimension raises on zero). -/
def yoloCoords (r : Rect) (imgW imgH : ℤ) : Except PyErr (ℚ × ℚ × ℚ × ℚ) := do
  let x1 : ℚ := r.x
  let y1 : ℚ := r.y
  let x2 : ℚ := x1 + r.width
  let y2 : ℚ := y1 + r.height
  let xc ← pydiv ((x1 + x2) / 2) (imgW : ℚ)
  let yc ← pydiv ((y1 + y2) / 2) (imgH : ℚ)
  let bw ← pydiv |x2 - x1| (imgW : ℚ)
  let bh ← pydiv |y2 - y1| (imgH : ℚ)
  return (xc, yc, bw, bh)

/-- Rounding to the nearest integer with ties to even, as used by Python
fixed-point float formatting. -/
def roundHalfEven (x : ℚ) : ℤ :=
  let f := ⌊x⌋
  let r := x - f
  if 1/2 < r then f + 1
  else if r < 1/2 then f
  else if f % 2 = 0 then f else f + 1

/-- The exact rational denoted by the 10-fractional-digit decimal string
that Python `'{:.10f}'.format` produces for a value. -/
def round10 (q : ℚ) : ℚ := (roundHalfEven (q * 10^10) : ℚ) / 10^10

/-- One line written to the label file: the class id followed by the four
normalized coordinates at the emitted 10-decimal precision. -/
def encodeLine (classId : ℤ) (r : Rect) (imgW imgH : ℤ) :
    Except PyErr (ℤ × ℚ × ℚ × ℚ × ℚ) :=
  (yoloCoords r imgW imgH).map
    (fun v => (classId, round10 v.1, round10 v.2.1, round10 v.2.2.1, round10 v.2.2.2))

/-- The write loop of `export_annotations`: lines are written one at a time,
and a raised exception aborts the loop, leaving the already-written prefix.
Returns the written lines and the exception, if any. -/
def writeLines (imgW imgH : ℤ) :
    List (ℤ × Rect) → List (ℤ × ℚ × ℚ × ℚ × ℚ) × Option PyErr
  | [] => ([], none)
  | (c, r) :: rest =>
    match encodeLine c r imgW imgH with
    | .error e => ([], some e)
    | .ok line =>
      let tail := writeLines imgW imgH rest
      (line :: tail.1, tail.2)

/-- Embedding of `YoloExporter.export_annotations`: raises ValueError on an empty
annotation list, otherwise writes the encoded lines in order.  The image
dimensions come from the loaded `QPixmap`. -/
def exportAnnotations (annotations : List (ℤ × Rect)) (imgW imgH : ℤ) :
    List (ℤ × ℚ × ℚ × ℚ × ℚ) × Option PyErr :=
  if annotations = [] then ([], some .valueError)
  else writeLines imgW imgH annotations

/-- Modelled from the spec: the repository ships no decoder; §4.1 specifies
`decode(AnnotationLine, image_width, image_height) -> absolute_bbox` as the
inverse of encode, scaling center and size back by the image dimensions.
Returns the corner box `(x1, y1, x2, y2)`. -/
def decodeLine (line : ℤ × ℚ × ℚ × ℚ × ℚ) (imgW imgH : ℤ) : ℚ × ℚ × ℚ × ℚ :=
  ((line.2.1 - line.2.2.2.1 / 2) * (imgW : ℚ),
   (line.2.2.1 - line.2.2.2.2 / 2) * (imgH : ℚ),
   (line.2.1 + line.2.2.2.1 / 2) * (imgW : ℚ),
   (line.2.2.1 + line.2.2.2.2 / 2) * (imgH : ℚ))

theorem abs_roundHalfEven_sub_le (x : ℚ) : |(roundHalfEven x : ℚ) - x| ≤ 1/2 := by
  have h1 := Int.floor_le x
  have h2 := Int.lt_floor_add_one x
  rw [roundHalfEven]
  split_ifs with ha hb hc
  · rw [abs_le]; constructor <;> push_cast <;> linarith
  · rw [abs_le]; constructor <;> push_cast <;> linarith
  · rw [abs_le]; constructor <;> push_cast <;> linarith
  · rw [abs_le]; constructor <;> push_cast <;> linarith

theorem abs_round10_sub_le (q : ℚ) : |round10 q - q| ≤ 1/(2 * 10^10) := by
  have h := abs_roundHalfEven_sub_le (q * 10^10)
  rw [round10]
  have e : (roundHalfEven (q * 10^10) : ℚ)/10^10 - q =
      ((roundHalfEven (q * 10^10) : ℚ) - q * 10^10)/10^10 := by ring
  rw [e, abs_div, abs_of_pos (show (0 : ℚ) < 10^10 by norm_num)]
  rw [div_le_iff₀ (show (0 : ℚ) < 10^10 by norm_num)]
  calc |(roundHalfEven (q * 10^10) : ℚ) - q * 10^10| ≤ 1/2 := h
    _ = 1/(2 * 10^10) * 10^10 := by norm_num

/-- The decoding error contributed by two 10-decimal roundings scaled back
by a dimension of magnitude at most 10000 is far below one pixel. -/
theorem roundtrip_err_bound (e1 e2 W : ℚ)
    (h1 : |e1| ≤ 1/(2 * 10^10)) (h2 : |e2| ≤ 1/(2 * 10^10))
    (hW : |W| ≤ 10000) : |(e1 + e2 / 2) * W| ≤ 1 := by
  have hb : |e1 + e2 / 2| ≤ 3/(4 * 10^10) := by
    calc |e1 + e2 / 2| ≤ |e1| + |e2 / 2| := abs_add _ _
      _ = |e1| + |e2| / 2 := by rw [abs_div, abs_of_pos (show (0:ℚ) < 2 by norm_num)]
      _ ≤ 1/(2 * 10^10) + (1/(2 * 10^10)) / 2 := by linarith
      _ = 3/(4 * 10^10) := by norm_num
  calc |(e1 + e2 / 2) * W| = |e1 + e2 / 2| * |W| := abs_mul _ _
    _ ≤ (3/(4 * 10^10)) * 10000 :=
        mul_le_mul hb hW (abs_nonneg _) (by norm_num)
    _ ≤ 1 := by norm_num

/-- The F1 computation of `ModelTrainer.evaluate_model`, on the extracted
mean precision `mp` and mean recall `mr`:
`2 * (mp * mr) / (mp + mr + 1e-16)`. -/
def f1Score (mp mr : ℚ) : Except PyErr ℚ :=
  pydiv (2 * (mp * mr)) (mp + mr + 1/10^16)

/-- C9: with the epsilon `1e-16` in the denominator, precision = recall = 0
yields F1 = 0 and no division-by-zero exception. -/
theorem C9_f1_zero : f1Score 0 0 = .ok 0 := by
  rw [f1Score, pydiv, if_neg (by norm_num)]
  simp only [Except.ok.injEq]
  norm_num

theorem C10_no_mutation_witness :
    |(7 : ℚ)/10 + 1/5 + 1/10 - 1| ≤ 1/100 ∧ 0 < ([[9, 8, 7]] : List (List ℕ)).length ∧
    ((splitDatasetHeap List.reverse [[9, 8, 7]] 0 (7/10) (1/5) (1/10)).1).getD 0 []
      = ([[9, 8, 7]] : List (List ℕ)).getD 0 [] :=
  ⟨by norm_num [abs_le], by decide,
   C10_no_mutation List.reverse [[9, 8, 7]] 0 (7/10) (1/5) (1/10)
     (by norm_num [abs_le]) (by decide)⟩

/-- Round-trip accuracy along one axis: decoding the 10-decimal rounded
center/size of a span `[x, x+w]` scaled by a dimension `W ≤ 10000`
reproduces both endpoints to within one pixel. -/
theorem axis_roundtrip (x w W : ℚ) (hw : 0 ≤ w) (hW0 : 0 < W)
    (hWle : W ≤ 10000) :
    |(round10 (((x + (x + w)) / 2) / W) - round10 (|x + w - x| / W) / 2) * W - x| ≤ 1 ∧
    |(round10 (((x + (x + w)) / 2) / W) + round10 (|x + w - x| / W) / 2) * W - (x + w)| ≤ 1 := by
  have habs : |x + w - x| = w := by
    rw [show x + w - x = w by ring]
    exact abs_of_nonneg hw
  rw [habs]
  set c := ((x + (x + w)) / 2) / W with hc
  set s := w / W with hs
  have hWne : W ≠ 0 := ne_of_gt hW0
  have h1 : (c - s / 2) * W = x := by
    rw [hc, hs]
    field_simp
    ring
  have h2 : (c + s / 2) * W = x + w := by
    rw [hc, hs]
    field_simp
    ring
  have habsW : |W| ≤ 10000 := by rw [abs_of_pos hW0]; exact hWle
  constructor
  · have key : (round10 c - round10 s / 2) * W - x =
        ((round10 c - c) + (-(round10 s - s)) / 2) * W := by
      have expand : (round10 c - round10 s / 2) * W - x =
          ((c - s / 2) * W - x) + ((round10 c - c) + (-(round10 s - s)) / 2) * W := by
        ring
      rw [expand, h1, sub_self, zero_add]
    rw [key]
    exact roundtrip_err_bound _ _ _ (abs_round10_sub_le c)
      (by rw [abs_neg]; exact abs_round10_sub_le s) habsW
  · have key : (round10 c + round10 s / 2) * W - (x + w) =
        ((round10 c - c) + (round10 s - s) / 2) * W := by
      have expand : (round10 c + round10 s / 2) * W - (x + w) =
          ((c + s / 2) * W - (x + w)) + ((round10 c - c) + (round10 s - s) / 2) * W := by
        ring
      rw [expand, h2, sub_self, zero_add]
    rw [key]
    exact roundtrip_err_bound _ _ _ (abs_round10_sub_le c)
      (abs_round10_sub_le s) habsW

/-- C5: for image dimensions from 1 to 10000 and a bounding box fully inside
the image, decoding the emitted annotation line (class id and four
coordinates at the written 10-decimal precision) reproduces the original
pixel box to within one pixel on every corner coordinate. -/
theorem C5_encode_decode_roundtrip (classId : ℤ) (r : Rect) (imgW imgH : ℤ)
    (hW1 : 1 ≤ imgW) (hW2 : imgW ≤ 10000)
    (hH1 : 1 ≤ imgH) (hH2 : imgH ≤ 10000)
    (hx0 : 0 ≤ r.x) (hy0 : 0 ≤ r.y)
    (hwidth : 0 ≤ r.width) (hheight : 0 ≤ r.height)
    (hxw : r.x + r.width ≤ imgW) (hyh : r.y + r.height ≤ imgH) :
    ∃ line, encodeLine classId r imgW imgH = .ok line ∧ line.1 = classId ∧
      |(decodeLine line imgW imgH).1 - (r.x : ℚ)| ≤ 1 ∧
      |(decodeLine line imgW imgH).2.1 - (r.y : ℚ)| ≤ 1 ∧
      |(decodeLine line imgW imgH).2.2.1 - ((r.x : ℚ) + (r.width : ℚ))| ≤ 1 ∧
      |(decodeLine line imgW imgH).2.2.2 - ((r.y : ℚ) + (r.height : ℚ))| ≤ 1 := by
  have hWpos : (0 : ℚ) < (imgW : ℚ) := by exact_mod_cast lt_of_lt_of_le Int.zero_lt_one hW1
  have hHpos : (0 : ℚ) < (imgH : ℚ) := by exact_mod_cast lt_of_lt_of_le Int.zero_lt_one hH1
  have hWne : ((imgW : ℤ) : ℚ) ≠ 0 := ne_of_gt hWpos
  have hHne : ((imgH : ℤ) : ℚ) ≠ 0 := ne_of_gt hHpos
  have hWle : ((imgW : ℤ) : ℚ) ≤ 10000 := by exact_mod_cast hW2
  have hHle : ((imgH : ℤ) : ℚ) ≤ 10000 := by exact_mod_cast hH2
  have hcoords : yoloCoords r imgW imgH = .ok
      ((((r.x : ℚ) + ((r.x : ℚ) + (r.width : ℚ))) / 2) / (imgW : ℚ),
       (((r.y : ℚ) + ((r.y : ℚ) + (r.height : ℚ))) / 2) / (imgH : ℚ),
       |(r.x : ℚ) + (r.width : ℚ) - (r.x : ℚ)| / (imgW : ℚ),
       |(r.y : ℚ) + (r.height : ℚ) - (r.y : ℚ)| / (imgH : ℚ)) := by
    simp [yoloCoords, pydiv, hWne, hHne, exceptBind_ok, exceptBind_error,
      exceptMap_ok, exceptMap_error]
  have henc : encodeLine classId r imgW imgH = .ok
      (classId,
       round10 ((((r.x : ℚ) + ((r.x : ℚ) + (r.width : ℚ))) / 2) / (imgW : ℚ)),
       round10 ((((r.y : ℚ) + ((r.y : ℚ) + (r.height : ℚ))) / 2) / (imgH : ℚ)),
       round10 (|(r.x : ℚ) + (r.width : ℚ) - (r.x : ℚ)| / (imgW : ℚ)),
       round10 (|(r.y : ℚ) + (r.height : ℚ) - (r.y : ℚ)| / (imgH : ℚ))) := by
    rw [encodeLine, hcoords]
    rfl
  obtain ⟨bx, bxp⟩ := axis_roundtrip (r.x : ℚ) (r.width : ℚ) (imgW : ℚ)
    (by exact_mod_cast hwidth) hWpos hWle
  obtain ⟨by1, byp⟩ := axis_roundtrip (r.y : ℚ) (r.height : ℚ) (imgH : ℚ)
    (by exact_mod_cast hheight) hHpos hHle
  refine ⟨_, henc, rfl, ?_, ?_, ?_, ?_⟩
  · simpa [decodeLine] using bx
  · simpa [decodeLine] using by1
  · simpa [decodeLine] using bxp
  · simpa [decodeLine] using byp

theorem C5_encode_decode_roundtrip_witness :
    (1 : ℤ) ≤ 100 ∧ (10 : ℤ) + 30 ≤ 100 ∧
    ∃ line, encodeLine 2 (Rect.mk 10 20 30 40) 100 200 = .ok line ∧
      line.1 = 2 ∧
      |(decodeLine line 100 200).1 - ((Rect.mk 10 20 30 40).x : ℚ)| ≤ 1 ∧
      |(decodeLine line 100 200).2.1 - ((Rect.mk 10 20 30 40).y : ℚ)| ≤ 1 ∧
      |(decodeLine line 100 200).2.2.1 -
        (((Rect.mk 10 20 30 40).x : ℚ) + ((Rect.mk 10 20 30 40).width : ℚ))| ≤ 1 ∧
      |(decodeLine line 100 200).2.2.2 -
        (((Rect.mk 10 20 30 40).y : ℚ) + ((Rect.mk 10 20 30 40).height : ℚ))| ≤ 1 :=
  ⟨by decide, by decide,
   C5_encode_decode_roundtrip 2 (Rect.mk 10 20 30 40) 100 200
     (by decide) (by decide) (by decide) (by decide) (by decide) (by decide)
     (by decide) (by decide) (by decide) (by decide)⟩

/-- C8: the claim asserts a division-by-zero failure for zero *or negative*
dimensions, but Python division by a negative integer succeeds: with
dimensions `-5 × -5` the export completes with no exception (the claimed
fail-fast does not happen). -/
theorem C8_counterexample :
    ((-5 : ℤ) < 0) ∧ ([((0 : ℤ), Rect.mk 0 0 10 10)] ≠ []) ∧
    (exportAnnotations [((0 : ℤ), Rect.mk 0 0 10 10)] (-5) (-5)).2 = none := by
  refine ⟨by decide, by simp, ?_⟩
  have hW : ((-5 : ℤ) : ℚ) ≠ 0 := by norm_num
  simp [exportAnnotations, writeLines, encodeLine, yoloCoords, pydiv, hW,
    exceptBind_ok, exceptBind_error, exceptMap_ok, exceptMap_error]

/-- C8 (amended): for a non-empty annotation list and an image whose width
or height is zero, the export fails fast with ZeroDivisionError before any
line is written; in the exact-rational embedding every value that is
written is a well-defined rational, so no inf/nan can reach the label file
(a negative dimension, impossible for a `QPixmap`, would not raise). -/
theorem C8_zero_dims_fail_fast (annotations : List (ℤ × Rect)) (imgW imgH : ℤ)
    (hne : annotations ≠ []) (hzero : imgW = 0 ∨ imgH = 0) :
    exportAnnotations annotations imgW imgH = ([], some .zeroDivisionError) := by
  obtain ⟨⟨c, r⟩, rest, rfl⟩ := List.exists_cons_of_ne_nil hne
  have henc : encodeLine c r imgW imgH = .error .zeroDivisionError := by
    rcases hzero with h0 | h0
    · subst h0
      simp [encodeLine, yoloCoords, pydiv, exceptBind_ok, exceptBind_error,
        exceptMap_ok, exceptMap_error]
    · subst h0
      by_cases hW : ((imgW : ℤ) : ℚ) = 0
      · simp [encodeLine, yoloCoords, pydiv, hW, exceptBind_ok, exceptBind_error,
          exceptMap_ok, exceptMap_error]
      · simp [encodeLine, yoloCoords, pydiv, hW, exceptBind_ok, exceptBind_error,
          exceptMap_ok, exceptMap_error]
  rw [exportAnnotations, if_neg (by simp)]
  simp [writeLines, henc]

theorem C8_zero_dims_fail_fast_witness :
    ([((1 : ℤ), Rect.mk 2 3 4 5)] ≠ []) ∧ ((0 : ℤ) = 0 ∨ (7 : ℤ) = 0) ∧
    exportAnnotations [((1 : ℤ), Rect.mk 2 3 4 5)] 0 7 =
      ([], some .zeroDivisionError) :=
  ⟨by simp, Or.inl rfl,
   C8_zero_dims_fail_fast [((1 : ℤ), Rect.mk 2 3 4 5)] 0 7 (by simp) (Or.inl rfl)⟩

/-- A `pathlib.Path` directory value as used by `_collect_files`: absolute
flag plus the name components.  Two path values are equal exactly when they
are the same lexical path (Python `Path` equality, the relation under which
`set()` deduplicates); no resolution against the working directory happens. -/
structure MPath where
  absolute : Bool
  parts : List String
deriving DecidableEq, Repr

/-- Appending `p / name` on directory paths. -/
def MPath.join (p : MPath) (name : String) : MPath :=
  ⟨p.absolute, p.parts ++ [name]⟩

/-- Resolution of a path against the working directory: the physical
directory a (possibly relative) path denotes. -/
def MPath.resolve (cwd p : MPath) : MPath :=
  if p.absolute then p else ⟨cwd.absolute, cwd.parts ++ p.parts⟩

/-- A file path produced by `Path.glob`: the search directory exactly as it
was written, plus the file name split as `stem` and `ext` (pathlib's
`stem`/`suffix` decomposition, which is all the source uses of the name). -/
structure MFile where
  dir : MPath
  stem : String
  ext : String
deriving DecidableEq, Repr

/-- The physical identity of a file: its directory resolved against the
working directory. -/
def MFile.resolve (cwd : MPath) (f : MFile) : MFile :=
  ⟨MPath.resolve cwd f.dir, f.stem, f.ext⟩

/-- The case-sensitive suffix set of `_collect_files` (a Python `set`;
iteration order is arbitrary and the output order is not a contract, so a
fixed order is used here). -/
def imageExtensions : List String :=
  [".jpg", ".jpeg", ".png", ".bmp", ".tiff", ".tif"]

/-- Embedding of `search_path.glob` for one suffix: every file whose name carries it,
listed from the physical directory but reported under the search path as
written.  `listing` maps a physical directory to the `(stem, ext)` pairs of
the files it holds. -/
def globFiles (listing : MPath → List (String × String)) (cwd sp : MPath)
    (ext : String) : List MFile :=
  ((listing (MPath.resolve cwd sp)).filter (fun nm => nm.2 == ext)).map
    (fun nm => ⟨sp, nm.1, nm.2⟩)

/-- The five search roots of `_collect_files`. -/
def searchPaths (sourceDir : MPath) : List MPath :=
  [sourceDir, sourceDir.join "images",
   ⟨false, ["images"]⟩, ⟨false, ["exports", "yolo"]⟩, ⟨false, ["labels"]⟩]

/-- Embedding of `DatasetPreparer._collect_files`: accumulate image files (by suffix) and
`.txt` label files over the existing search roots, then deduplicate each
list through `set()`, i.e. by lexical path equality. -/
def collectFiles (cwd sourceDir : MPath) (dirExists : MPath → Bool)
    (listing : MPath → List (String × String)) : List MFile × List MFile :=
  let step := fun (acc : List MFile × List MFile) (sp : MPath) =>
    if dirExists (MPath.resolve cwd sp) then
      (acc.1 ++ imageExtensions.flatMap (fun ext => globFiles listing cwd sp ext),
       acc.2 ++ globFiles listing cwd sp ".txt")
    else acc
  let collected := (searchPaths sourceDir).foldl step ([], [])
  (collected.1.dedup, collected.2.dedup)

/-- Embedding of `DatasetPreparer._find_label_file`: the first collected label file whose
stem equals the image's stem, else `None`. -/
def findLabelFile (imageFile : MFile) (labelFiles : List MFile) : Option MFile :=
  labelFiles.find? (fun lf => lf.stem == imageFile.stem)

/-- C6: dedup is by lexical path value, not by resolved absolute path: with
`source_dir = /data` and the process working directory also `/data`, the
physical file `/data/images/a.jpg` is reported once under the root
`/data/images` and once under the relative root `images`, and both survive
`set()` — the same physical file appears twice in the output. -/
theorem C6_counterexample :
    (((collectFiles ⟨true, ["data"]⟩ ⟨true, ["data"]⟩
        (fun p => p == ⟨true, ["data"]⟩ || p == ⟨true, ["data", "images"]⟩)
        (fun p => if p == ⟨true, ["data", "images"]⟩ then [("a", ".jpg")] else [])).1.map
      (MFile.resolve ⟨true, ["data"]⟩)).count
        ⟨⟨true, ["data", "images"]⟩, "a", ".jpg"⟩) = 2 := by
  decide

/-- C6 (amended): `set()` deduplication guarantees only that no lexical path
value appears twice in either output list (the same physical file reachable
under two different spellings counts twice), and an image whose stem equals
no collected label stem yields `None` from `_find_label_file`. -/
theorem C6_dedup_and_label_lookup (cwd sourceDir : MPath)
    (dirExists : MPath → Bool) (listing : MPath → List (String × String))
    (imageFile : MFile) (labelFiles : List MFile)
    (hnolabel : ∀ lf ∈ labelFiles, lf.stem ≠ imageFile.stem) :
    (collectFiles cwd sourceDir dirExists listing).1.Nodup ∧
    (collectFiles cwd sourceDir dirExists listing).2.Nodup ∧
    findLabelFile imageFile labelFiles = none := by
  refine ⟨List.nodup_dedup _, List.nodup_dedup _, ?_⟩
  rw [findLabelFile, List.find?_eq_none]
  intro lf hlf
  simpa using hnolabel lf hlf

theorem C6_dedup_and_label_lookup_witness :
    (∀ lf ∈ [(⟨⟨false, ["labels"]⟩, "img0", ".txt"⟩ : MFile)],
        lf.stem ≠ (⟨⟨false, ["images"]⟩, "img5", ".jpg"⟩ : MFile).stem) ∧
    ((collectFiles ⟨true, ["data"]⟩ ⟨true, ["data"]⟩
        (fun p => p == ⟨true, ["data"]⟩ || p == ⟨true, ["data", "images"]⟩)
        (fun p => if p == ⟨true, ["data", "images"]⟩ then [("a", ".jpg")] else [])).1.Nodup ∧
     (collectFiles ⟨true, ["data"]⟩ ⟨true, ["data"]⟩
        (fun p => p == ⟨true, ["data"]⟩ || p == ⟨true, ["data", "images"]⟩)
        (fun p => if p == ⟨true, ["data", "images"]⟩ then [("a", ".jpg")] else [])).2.Nodup ∧
     findLabelFile ⟨⟨false, ["images"]⟩, "img5", ".jpg"⟩
       [⟨⟨false, ["labels"]⟩, "img0", ".txt"⟩] = none) :=
  ⟨by decide,
   C6_dedup_and_label_lookup ⟨true, ["data"]⟩ ⟨true, ["data"]⟩
     (fun p => p == ⟨true, ["data"]⟩ || p == ⟨true, ["data", "images"]⟩)
     (fun p => if p == ⟨true, ["data", "images"]⟩ then [("a", ".jpg")] else [])
     ⟨⟨false, ["images"]⟩, "img5", ".jpg"⟩
     [⟨⟨false, ["labels"]⟩, "img0", ".txt"⟩]
     (by decide)⟩

/-- Helper for `pySplitTokens`: scan characters, accumulating the current
token (reversed); whitespace ends a token. -/
def splitTokensAux : List Char → List Char → List String
  | [], cur => if cur.isEmpty then [] else [cur.reverse.asString]
  | c :: cs, cur =>
    if c.isWhitespace then
      if cur.isEmpty then splitTokensAux cs []
      else cur.reverse.asString :: splitTokensAux cs []
    else splitTokensAux cs (c :: cur)

/-- Python `line.strip().split()`: the maximal whitespace-free runs of the
line, in order; a blank or whitespace-only line has no tokens. -/
def pySplitTokens (line : String) : List String :=
  splitTokensAux line.toList []

/-- The value of a nonempty all-digit character run, else `none`. -/
def digitsVal (cs : List Char) : Option ℕ :=
  if cs.isEmpty then none
  else if cs.all Char.isDigit then
    some (cs.foldl (fun acc c => acc * 10 + (c.toNat - '0'.toNat)) 0)
  else none

/-- Python `int(token)`: an optional sign followed by digits; anything else
raises (modelled as `none`). -/
def pyParseInt (tok : String) : Option ℤ :=
  match tok.toList with
  | '-' :: rest => (digitsVal rest).map (fun n => -(n : ℤ))
  | '+' :: rest => (digitsVal rest).map (fun n => (n : ℤ))
  | cs => (digitsVal cs).map (fun n => (n : ℤ))

/-- Embedding of `class_counts[class_id] = class_counts.get(class_id, 0) + 1` on the
insertion-ordered dict, modelled as an association list with unique keys:
bump the matching entry or append a new one. -/
def dictIncr : List (ℤ × ℕ) → ℤ → List (ℤ × ℕ)
  | [], k => [(k, 1)]
  | (k', v) :: rest, k =>
    if k' = k then (k', v + 1) :: rest else (k', v) :: dictIncr rest k

/-- Processing of one label-file line by `_generate_dataset_statistics`:
lines with no whitespace tokens are skipped, otherwise the first token is
parsed as the class id (raising ValueError if not an integer) and counted. -/
def countLine (acc : List (ℤ × ℕ)) (line : String) :
    Except PyErr (List (ℤ × ℕ)) :=
  match pySplitTokens line with
  | [] => .ok acc
  | tok :: _ =>
    match pyParseInt tok with
    | some classId => .ok (dictIncr acc classId)
    | none => .error .valueError

/-- Per-file statistics step: `total_annotations += len(lines)` and the
per-line class counting loop. -/
def statsStep (acc : ℕ × List (ℤ × ℕ)) (file : List String) :
    Except PyErr (ℕ × List (ℤ × ℕ)) := do
  let counts ← file.foldlM countLine acc.2
  return (acc.1 + file.length, counts)

/-- The annotation statistics of one split computed by
`_generate_dataset_statistics`: each label file is given by its list of
lines (as `readlines()` yields them); the result is the total annotation
count and the class-id distribution. -/
def splitStatistics (labelFiles : List (List String)) :
    Except PyErr (ℕ × List (ℤ × ℕ)) :=
  labelFiles.foldlM statsStep (0, [])

/-- Whether `_generate_dataset_statistics` can process a line without
raising: either no tokens, or an integer first token. -/
def lineParses (line : String) : Bool :=
  match pySplitTokens line with
  | [] => true
  | tok :: _ => (pyParseInt tok).isSome

theorem dictIncr_sum (d : List (ℤ × ℕ)) (k : ℤ) :
    ((dictIncr d k).map Prod.snd).sum = (d.map Prod.snd).sum + 1 := by
  induction d with
  | nil => simp [dictIncr]
  | cons kv rest ih =>
    obtain ⟨k', v⟩ := kv
    rw [dictIncr]
    split_ifs with h
    · simp only [List.map_cons, List.sum_cons]
      omega
    · simp only [List.map_cons, List.sum_cons, ih]
      omega

theorem countLines_fold (file : List String) : ∀ acc : List (ℤ × ℕ),
    (∀ line ∈ file, lineParses line = true) →
    ∃ d, file.foldlM countLine acc = .ok d ∧
      (d.map Prod.snd).sum =
        (acc.map Prod.snd).sum +
          file.countP (fun l => !(pySplitTokens l).isEmpty) := by
  induction file with
  | nil =>
    intro acc _
    exact ⟨acc, rfl, by simp⟩
  | cons line rest ih =>
    intro acc hp
    have hline := hp line (List.mem_cons_self _ _)
    rw [List.foldlM_cons]
    cases hsp : pySplitTokens line with
    | nil =>
      have hstep : countLine acc line = .ok acc := by
        simp only [countLine, hsp]
      rw [hstep, exceptBind_ok]
      obtain ⟨d, hd, hsum⟩ := ih acc (fun l hl => hp l (List.mem_cons_of_mem _ hl))
      refine ⟨d, hd, ?_⟩
      rw [hsum]
      simp [List.countP_cons, hsp]
    | cons tok rest2 =>
      have hps : (pyParseInt tok).isSome = true := by
        have : lineParses line = (pyParseInt tok).isSome := by
          rw [lineParses, hsp]
        rw [this] at hline
        exact hline
      obtain ⟨cid, hcid⟩ := Option.isSome_iff_exists.mp hps
      have hstep : countLine acc line = .ok (dictIncr acc cid) := by
        simp only [countLine, hsp, hcid]
      rw [hstep, exceptBind_ok]
      obtain ⟨d, hd, hsum⟩ :=
        ih (dictIncr acc cid) (fun l hl => hp l (List.mem_cons_of_mem _ hl))
      refine ⟨d, hd, ?_⟩
      rw [hsum, dictIncr_sum]
      simp only [List.countP_cons, hsp]
      simp
      omega

theorem statsFold (labelFiles : List (List String)) :
    ∀ (t0 : ℕ) (d0 : List (ℤ × ℕ)),
    (∀ file ∈ labelFiles, ∀ line ∈ file, lineParses line = true) →
    ∃ total dist, labelFiles.foldlM statsStep (t0, d0) = .ok (total, dist) ∧
      total = t0 + (labelFiles.map List.length).sum ∧
      (dist.map Prod.snd).sum =
        (d0.map Prod.snd).sum +
          (labelFiles.map
            (fun f => f.countP (fun l => !(pySplitTokens l).isEmpty))).sum := by
  induction labelFiles with
  | nil =>
    intro t0 d0 _
    exact ⟨t0, d0, rfl, by simp, by simp⟩
  | cons file rest ih =>
    intro t0 d0 hp
    rw [List.foldlM_cons]
    obtain ⟨d, hd, hdsum⟩ :=
      countLines_fold file d0 (hp file (List.mem_cons_self _ _))
    have hstep : statsStep (t0, d0) file = .ok (t0 + file.length, d) := by
      rw [statsStep]
      show (file.foldlM countLine d0 >>= fun counts =>
        pure (t0 + file.length, counts)) = _
      rw [hd, exceptBind_ok]
      rfl
    rw [hstep, exceptBind_ok]
    obtain ⟨total, dist, hfold, htot, hsum⟩ :=
      ih (t0 + file.length) d (fun f hf => hp f (List.mem_cons_of_mem _ hf))
    refine ⟨total, dist, hfold, ?_, ?_⟩
    · rw [htot]
      simp
      omega
    · rw [hsum, hdsum]
      simp
      omega

/-- C7: token-less lines are *not* skipped by the total annotation count —
`total_annotations += len(lines)` counts every line, while the per-class
distribution skips them: a split with one label file whose lines are
`"0 ...", "", "1 ..."` reports 3 annotations but per-class counts summing
to 2. -/
theorem C7_counterexample :
    splitStatistics [["0 0.48 0.52 0.20 0.10", "", "1 0.30 0.40 0.10 0.10"]] =
      .ok (3, [(0, 1), (1, 1)]) ∧
    (([(0, 1), (1, 1)] : List (ℤ × ℕ)).map Prod.snd).sum = 2 ∧ (2 : ℕ) ≠ 3 :=
  ⟨by decide, by decide, by decide⟩

/-- C7 (amended): lines with no whitespace tokens are skipped by the
per-class distribution but still counted in the split's total annotation
count, which is the raw line count; the per-class counts summed over all
class ids equal the number of lines that have at least one token, and hence
equal the total annotation count exactly when every line has a token. -/
theorem C7_class_counts (labelFiles : List (List String))
    (hp : ∀ file ∈ labelFiles, ∀ line ∈ file, lineParses line = true) :
    ∃ total dist, splitStatistics labelFiles = .ok (total, dist) ∧
      total = (labelFiles.map List.length).sum ∧
      (dist.map Prod.snd).sum =
        (labelFiles.map
          (fun f => f.countP (fun l => !(pySplitTokens l).isEmpty))).sum ∧
      ((∀ file ∈ labelFiles, ∀ line ∈ file, pySplitTokens line ≠ []) →
        (dist.map Prod.snd).sum = total) := by
  obtain ⟨total, dist, hfold, htot, hsum⟩ := statsFold labelFiles 0 [] hp
  refine ⟨total, dist, hfold, by simpa using htot, by simpa using hsum, ?_⟩
  intro hall
  rw [htot, hsum]
  have hmap : labelFiles.map (fun f => f.countP (fun l => !(pySplitTokens l).isEmpty)) =
      labelFiles.map List.length := by
    refine List.map_congr_left ?_
    intro f hf
    rw [List.countP_eq_length]
    intro l hl
    have hne := hall f hf l hl
    simp [List.isEmpty_iff, hne]
  rw [hmap]
  simp

theorem C7_class_counts_witness :
    (∀ file ∈ [["0 0.48 0.52 0.20 0.10", "1 0.30 0.40 0.10 0.10"]],
      ∀ line ∈ file, lineParses line = true) ∧
    ∃ total dist,
      splitStatistics [["0 0.48 0.52 0.20 0.10", "1 0.30 0.40 0.10 0.10"]] =
        .ok (total, dist) ∧
      total = ([["0 0.48 0.52 0.20 0.10", "1 0.30 0.40 0.10 0.10"]].map
        List.length).sum ∧
      (dist.map Prod.snd).sum =
        ([["0 0.48 0.52 0.20 0.10", "1 0.30 0.40 0.10 0.10"]].map
          (fun f => f.countP (fun l => !(pySplitTokens l).isEmpty))).sum ∧
      ((∀ file ∈ [["0 0.48 0.52 0.20 0.10", "1 0.30 0.40 0.10 0.10"]],
          ∀ line ∈ file, pySplitTokens line ≠ []) →
        (dist.map Prod.snd).sum = total) :=
  ⟨by decide, C7_class_counts _ (by decide)⟩

/-- A file-system effect of `prepare_yolo_dataset`: directory creation or a
file copy (the claim-relevant effects; the dataset-yaml and statistics
documents are written only after all copies). -/
inductive FSOp where
  | mkdir (path : MPath) : FSOp
  | copy (src dst : MFile) : FSOp
deriving DecidableEq, Repr

/-- Embedding of `DatasetPreparer._create_dataset_structure`: the six split directories,
in creation order. -/
def datasetStructureOps (datasetPath : MPath) : List FSOp :=
  ["train", "val", "test"].flatMap (fun sp =>
    [FSOp.mkdir ((datasetPath.join "images").join sp),
     FSOp.mkdir ((datasetPath.join "labels").join sp)])

/-- The copy loop of `prepare_yolo_dataset` for one split: copy each image
into the split's image directory under its own name, and, when a label is
found, copy it renamed to the image stem with `.txt`. -/
def copyOps (datasetPath : MPath) (splitName : String)
    (fileList labelFiles : List MFile) : List FSOp :=
  fileList.flatMap (fun imgFile =>
    let imgDst : MFile :=
      ⟨(datasetPath.join "images").join splitName, imgFile.stem, imgFile.ext⟩
    match findLabelFile imgFile labelFiles with
    | some labelFile =>
        [FSOp.copy imgFile imgDst,
         FSOp.copy labelFile
           ⟨(datasetPath.join "labels").join splitName, imgFile.stem, ".txt"⟩]
    | none => [FSOp.copy imgFile imgDst])

/-- Embedding of `DatasetPreparer.prepare_yolo_dataset`: creates the directory structure,
collects files, raises ValueError(\"未找到任何圖片檔案\") if no image was
found, splits, and copies.  Returns the file-system effects in order
together with the result. -/
def prepareYoloDataset (cwd sourceDir outputDir : MPath) (datasetName : String)
    (dirExists : MPath → Bool) (listing : MPath → List (String × String))
    (σ : List MFile → List MFile) (trainRatio valRatio testRatio : ℚ) :
    List FSOp × Except String MPath :=
  let datasetPath := outputDir.join datasetName
  let ops0 := datasetStructureOps datasetPath
  let collected := collectFiles cwd sourceDir dirExists listing
  let imageFiles := collected.1
  let labelFiles := collected.2
  if imageFiles = [] then (ops0, .error "未找到任何圖片檔案")
  else
    match splitDataset σ imageFiles trainRatio valRatio testRatio with
    | .error e => (ops0, .error e)
    | .ok (trainFiles, valFiles, testFiles) =>
      (ops0 ++ copyOps datasetPath "train" trainFiles labelFiles
            ++ copyOps datasetPath "val" valFiles labelFiles
            ++ copyOps datasetPath "test" testFiles labelFiles,
       .ok (datasetPath.join "dataset.yaml"))

/-- C3: with an empty discovered-file set the validation error is raised,
but only *after* `_create_dataset_structure` has run: the six dataset split
directories have already been created when the error surfaces, contradicting
"no dataset directories are created".  (No file is copied.) -/
theorem C3_counterexample :
    (prepareYoloDataset ⟨true, ["app"]⟩ ⟨true, ["app", "ann"]⟩
        ⟨true, ["app", "datasets"]⟩ "vehicle_dataset"
        (fun _ => false) (fun _ => []) id (7/10) (2/10) (1/10)).2 =
      .error "未找到任何圖片檔案" ∧
    (prepareYoloDataset ⟨true, ["app"]⟩ ⟨true, ["app", "ann"]⟩
        ⟨true, ["app", "datasets"]⟩ "vehicle_dataset"
        (fun _ => false) (fun _ => []) id (7/10) (2/10) (1/10)).1 =
      [FSOp.mkdir ⟨true, ["app", "datasets", "vehicle_dataset", "images", "train"]⟩,
       FSOp.mkdir ⟨true, ["app", "datasets", "vehicle_dataset", "labels", "train"]⟩,
       FSOp.mkdir ⟨true, ["app", "datasets", "vehicle_dataset", "images", "val"]⟩,
       FSOp.mkdir ⟨true, ["app", "datasets", "vehicle_dataset", "labels", "val"]⟩,
       FSOp.mkdir ⟨true, ["app", "datasets", "vehicle_dataset", "images", "test"]⟩,
       FSOp.mkdir ⟨true, ["app", "datasets", "vehicle_dataset", "labels", "test"]⟩] ∧
    ([FSOp.mkdir ⟨true, ["app", "datasets", "vehicle_dataset", "images", "train"]⟩] : List FSOp) ≠ [] :=
  ⟨by decide, by decide, by decide⟩

/-- C3 (amended): when the discovered image-file set is empty,
`prepare_yolo_dataset` raises the validation error before any file is
copied; the directory skeleton, however, is created before discovery, so
the six split directories do already exist when the error surfaces. -/
theorem C3_empty_discovery (cwd sourceDir outputDir : MPath)
    (datasetName : String) (dirExists : MPath → Bool)
    (listing : MPath → List (String × String)) (σ : List MFile → List MFile)
    (trainRatio valRatio testRatio : ℚ)
    (hempty : (collectFiles cwd sourceDir dirExists listing).1 = []) :
    prepareYoloDataset cwd sourceDir outputDir datasetName dirExists listing σ
        trainRatio valRatio testRatio =
      (datasetStructureOps (outputDir.join datasetName),
       .error "未找到任何圖片檔案") ∧
    ∀ src dst, FSOp.copy src dst ∉
      (prepareYoloDataset cwd sourceDir outputDir datasetName dirExists listing σ
        trainRatio valRatio testRatio).1 := by
  have h1 : prepareYoloDataset cwd sourceDir outputDir datasetName dirExists
      listing σ trainRatio valRatio testRatio =
      (datasetStructureOps (outputDir.join datasetName),
       .error "未找到任何圖片檔案") := by
    simp only [prepareYoloDataset, hempty, if_pos]
  refine ⟨h1, ?_⟩
  rw [h1]
  intro src dst hmem
  simp [datasetStructureOps] at hmem

theorem C3_empty_discovery_witness :
    (collectFiles ⟨true, ["app"]⟩ ⟨true, ["app", "ann"]⟩
      (fun _ => false) (fun _ => [])).1 = [] ∧
    (prepareYoloDataset ⟨true, ["app"]⟩ ⟨true, ["app", "ann"]⟩
        ⟨true, ["app", "datasets"]⟩ "vehicle_dataset"
        (fun _ => false) (fun _ => []) id (7/10) (2/10) (1/10) =
      (datasetStructureOps ((MPath.mk true ["app", "datasets"]).join "vehicle_dataset"),
       .error "未找到任何圖片檔案") ∧
     ∀ src dst, FSOp.copy src dst ∉
       (prepareYoloDataset ⟨true, ["app"]⟩ ⟨true, ["app", "ann"]⟩
         ⟨true, ["app", "datasets"]⟩ "vehicle_dataset"
         (fun _ => false) (fun _ => []) id (7/10) (2/10) (1/10)).1) :=
  ⟨by decide,
   C3_empty_discovery ⟨true, ["app"]⟩ ⟨true, ["app", "ann"]⟩
     ⟨true, ["app", "datasets"]⟩ "vehicle_dataset"
     (fun _ => false) (fun _ => []) id (7/10) (2/10) (1/10) (by decide)⟩
